import Mathlib

/-!
# Verification of the emulator core (`program.py`)

A shallow embedding of the MIPS/N64 emulator core: the `MIPS_CPU` class
(registers, memory, word-level memory access, single-step execution) and the
`N64Emulator` session layer (image load, reset, save/load state, the per-frame
step with its policy overlays).  Python byte strings and `bytearray`s are
`List Nat` (each entry a byte value), Python ints are `Nat`/`Int`, and the
mutating methods become functions from the state to the new state.
-/

/-- Python `int.from_bytes(bs, 'big')`: big-endian interpretation of a byte
list. -/
def fromBytesBE (bs : List Nat) : Nat :=
  bs.foldl (fun acc b => acc * 256 + b) 0

/-- Python `value.to_bytes(4, 'big')` for `value < 2^32` (the source only ever
calls it on values masked to 32 bits). -/
def toBytes4BE (v : Nat) : List Nat :=
  [v / 16777216 % 256, v / 65536 % 256, v / 256 % 256, v % 256]

/-- Python slice assignment `m[lo:hi] = repl` (with `lo ≤ hi`): the slice is
replaced by `repl`, which may change the length of the byte array. -/
def sliceAssign (m : List Nat) (lo hi : Nat) (repl : List Nat) : List Nat :=
  m.take lo ++ repl ++ m.drop hi

/-- The `MIPS_CPU` object: `regs` is the Python list of 33 ints
(32 GPRs + PC at index 32), `memory` the 4 MiB `bytearray`, `cycles` the
cycle counter. -/
structure MIPS_CPU where
  regs : List Nat
  memory : List Nat
  cycles : Nat
  deriving Repr, DecidableEq

/-- `MIPS_CPU.__init__`: 33 zero registers with `regs[32] = 0xBFC00000`
(the N64 reset vector) and a zero-filled 4 MiB memory. -/
def MIPS_CPU.init : MIPS_CPU :=
  { regs := (List.replicate 33 0).set 32 0xBFC00000
    memory := List.replicate (4 * 1024 * 1024) 0
    cycles := 0 }

/-- `MIPS_CPU.read_word`: subtract `0x80000000`, and if the resulting offset
satisfies `0 <= addr < len(memory) - 3` return the 4 bytes there big-endian,
else 0.  The address is an `Int` because the Python subtraction can go
negative. -/
def read_word (memory : List Nat) (addr : Int) : Nat :=
  let phys : Int := addr - 0x80000000
  if 0 ≤ phys ∧ phys < (memory.length : Int) - 3 then
    fromBytesBE ((memory.drop phys.toNat).take 4)
  else 0

/-- `MIPS_CPU.write_word`: same mapping and bounds check; an in-range write
replaces the 4 bytes at the offset with the big-endian bytes of `value`,
an out-of-range write leaves memory unchanged. -/
def write_word (memory : List Nat) (addr : Int) (value : Nat) : List Nat :=
  let phys : Int := addr - 0x80000000
  if 0 ≤ phys ∧ phys < (memory.length : Int) - 3 then
    sliceAssign memory phys.toNat (phys.toNat + 4) (toBytes4BE value)
  else memory

/-- The sign-extension in `MIPS_CPU.step`: `if imm & 0x8000: imm -= 0x10000`.
The result is an `Int` because the Python variable goes negative. -/
def signExt16 (imm : Nat) : Int :=
  if imm &&& 0x8000 ≠ 0 then (imm : Int) - 0x10000 else (imm : Int)

/-- `MIPS_CPU.step`: fetch the word at PC, dispatch on the opcode
(ADDI `0x08`, LW `0x23`, SPECIAL `0x00` with funct `0x20` = ADD, anything
else a no-op), then unconditionally set PC to `(pc + 4) & 0xFFFFFFFF` and
increment `cycles`.  `regs[rs]` is `getD rs 0` (the Python list always has
33 entries, and all register indices decoded from an instruction are ≤ 31). -/
def MIPS_CPU.step (c : MIPS_CPU) : MIPS_CPU :=
  let pc := c.regs.getD 32 0
  let instr := read_word c.memory (pc : Int)
  let opcode := instr >>> 26 &&& 0x3F
  let c1 :=
    if opcode = 0x08 then
      let rt := instr >>> 16 &&& 0x1F
      let rs := instr >>> 21 &&& 0x1F
      let imm := signExt16 (instr &&& 0xFFFF)
      { c with regs :=
          c.regs.set rt ((((c.regs.getD rs 0 : Int) + imm) % 4294967296).toNat) }
    else if opcode = 0x23 then
      let rt := instr >>> 16 &&& 0x1F
      let rs := instr >>> 21 &&& 0x1F
      let imm := signExt16 (instr &&& 0xFFFF)
      let addr := (((c.regs.getD rs 0 : Int) + imm) % 4294967296).toNat
      { c with regs := c.regs.set rt (read_word c.memory (addr : Int)) }
    else if opcode = 0x00 then
      let funct := instr &&& 0x3F
      if funct = 0x20 then
        let rd := instr >>> 11 &&& 0x1F
        let rs := instr >>> 21 &&& 0x1F
        let rt := instr >>> 16 &&& 0x1F
        { c with regs :=
            c.regs.set rd ((c.regs.getD rs 0 + c.regs.getD rt 0) % 4294967296) }
      else c
    else c
  { c1 with regs := c1.regs.set 32 ((pc + 4) % 4294967296), cycles := c1.cycles + 1 }

/-- The plugin toggle dictionary of `N64Emulator.__init__`. -/
structure Plugins where
  personalizer : Bool
  rediscovered : Bool
  wonderGraphics : Bool
  debugger : Bool
  deriving Repr, DecidableEq

/-- The `N64Emulator` object.  `rom` is `none` before any image is loaded
(Python `None`); `infiniteHealth` is the single cheat flag. -/
structure N64Emulator where
  cpu : MIPS_CPU
  rom : Option (List Nat)
  running : Bool
  paused : Bool
  plugins : Plugins
  infiniteHealth : Bool
  mario_hat_color : String
  deriving Repr, DecidableEq

/-- `N64Emulator.__init__`. -/
def N64Emulator.init : N64Emulator :=
  { cpu := MIPS_CPU.init
    rom := none
    running := false
    paused := false
    plugins := ⟨true, false, false, false⟩
    infiniteHealth := false
    mario_hat_color := "Red" }

/-- Python truthiness of `self.rom` (`if self.rom:`): `None` and the empty
byte string are falsy. -/
def romTruthy : Option (List Nat) → Bool
  | none => false
  | some l => !l.isEmpty

/-- `N64Emulator.load_rom`, with the file contents passed directly as the
byte list `img`: stores the image, copies `img[0:0x1000]` over
`memory[0:0x1000]`, and sets PC to `0x80000000`. -/
def load_rom (e : N64Emulator) (img : List Nat) : N64Emulator :=
  { e with
    rom := some img
    cpu := { e.cpu with
      memory := sliceAssign e.cpu.memory 0 0x1000 (img.take 0x1000)
      regs := e.cpu.regs.set 32 0x80000000 } }

/-- `N64Emulator.reset`: replace the CPU by a fresh `MIPS_CPU()`, and when
`self.rom` is truthy copy `rom[0:0x1000]` over `memory[0:0x1000]`; set
`running` to true. -/
def reset (e : N64Emulator) : N64Emulator :=
  let fresh := MIPS_CPU.init
  let cpu' :=
    if romTruthy e.rom then
      { fresh with
        memory := sliceAssign fresh.memory 0 0x1000
          (((e.rom.getD []).take 0x1000)) }
    else fresh
  { e with cpu := cpu', running := true }

/-- The object `pickle.load` returns in `N64Emulator.load_state`.  A valid
save file holds the 3-tuple `(regs, memory, mario_hat_color)` written by
`save_state`; `nonTriple` stands for any pickled object that does not unpack
as a sequence of exactly three items (tuple unpacking in Python raises before
any of the three attributes is stored). -/
inductive Pickled where
  | triple (regs : List Nat) (memory : List Nat) (hat : String)
  | nonTriple
  deriving Repr, DecidableEq

/-- `N64Emulator.save_state`, with the written file contents returned as the
pickled value: the tuple `(self.cpu.regs, self.cpu.memory,
self.mario_hat_color)`. -/
def save_state (e : N64Emulator) : Pickled :=
  Pickled.triple e.cpu.regs e.cpu.memory e.mario_hat_color

/-- `N64Emulator.load_state`, with the file contents passed directly: the
tuple unpack `self.cpu.regs, self.cpu.memory, self.mario_hat_color = ...`
assigns all three fields when the object is a 3-tuple, with no check on the
components; a non-3-tuple raises (second component `true`) before any field
is assigned, so the emulator is returned unchanged. -/
def load_state (e : N64Emulator) : Pickled → N64Emulator × Bool
  | Pickled.triple r m h =>
      ({ e with cpu := { e.cpu with regs := r, memory := m },
                mario_hat_color := h }, false)
  | Pickled.nonTriple => (e, true)

/-- `N64Emulator.step`: a no-op when not running or paused; otherwise one
CPU step followed by the three flag-gated post-step mutators.  The
`random.choice` for the hat colour is modelled by the oracle argument
`hatChoice`. -/
def N64Emulator.step (e : N64Emulator) (hatChoice : String) : N64Emulator :=
  if !e.running || e.paused then e
  else
    let e1 := { e with cpu := e.cpu.step }
    let e2 :=
      if e1.plugins.personalizer ∧ e1.cpu.cycles % 1000 = 0 then
        { e1 with mario_hat_color := hatChoice }
      else e1
    let e3 :=
      if e2.plugins.rediscovered ∧ e2.cpu.cycles = 5000 then
        { e2 with cpu := { e2.cpu with
            memory := write_word e2.cpu.memory 0x80300000 1 } }
      else e2
    if e3.infiniteHealth then
      { e3 with cpu := { e3.cpu with
          memory := write_word e3.cpu.memory 0x8033B21E 8 } }
    else e3

/-! ## Helper lemmas -/

theorem getD_set_self (l : List Nat) (i v : Nat) (h : i < l.length) :
    (l.set i v).getD i 0 = v := by
  simp [List.getD_eq_getElem?_getD, List.getElem?_set_self h]

theorem getD_set_ne (l : List Nat) (i j v : Nat) (h : i ≠ j) :
    (l.set i v).getD j 0 = l.getD j 0 := by
  simp [List.getD_eq_getElem?_getD, List.getElem?_set_ne h]

theorem fromBytes_toBytes (v : Nat) (hv : v < 2 ^ 32) :
    fromBytesBE (toBytes4BE v) = v := by
  simp only [fromBytesBE, toBytes4BE, List.foldl]
  omega

theorem write_word_length (m : List Nat) (a : Int) (v : Nat) :
    (write_word m a v).length = m.length := by
  simp only [write_word]
  split
  · rename_i hcond
    simp only [sliceAssign, toBytes4BE, List.length_append, List.length_take,
      List.length_drop, List.length_cons, List.length_nil]
    omega
  · rfl

theorem step_memory (c : MIPS_CPU) : c.step.memory = c.memory := by
  simp only [MIPS_CPU.step]
  split
  · rfl
  · split
    · rfl
    · split
      · split <;> rfl
      · rfl

/-! ## Claim theorems -/

/-- C2: restoring the snapshot just captured (`load_state` after `save_state`)
yields a state observably identical to the moment of capture — every field of
the emulator, including all 33 register slots, the full memory, the hat
colour, and the cycle counter, is unchanged, and no error is raised. -/
theorem load_after_save_roundtrip (e : N64Emulator) :
    load_state e (save_state e) = (e, false) := by
  cases e with
  | mk cpu rom running paused plugins cheat hat => cases cpu; rfl

/-- C2 witness at a concrete machine state. -/
theorem load_after_save_roundtrip_witness :
    load_state N64Emulator.init (save_state N64Emulator.init) =
      (N64Emulator.init, false) :=
  load_after_save_roundtrip N64Emulator.init

/-- C4: for every virtual address outside `[0x80000000, 0x80000000 + len)`,
`read_word` returns 0 and `write_word` leaves memory unchanged. -/
theorem out_of_range_access (memory : List Nat) (vaddr : Int) (v : Nat)
    (h : vaddr < 0x80000000 ∨ (0x80000000 : Int) + memory.length ≤ vaddr) :
    read_word memory vaddr = 0 ∧ write_word memory vaddr v = memory := by
  have hc : ¬(0 ≤ vaddr - 0x80000000 ∧
      vaddr - 0x80000000 < (memory.length : Int) - 3) := by omega
  constructor
  · simp only [read_word]
    rw [if_neg hc]
  · simp only [write_word]
    rw [if_neg hc]

/-- C4 witness: an address below the segment base on a 4-byte memory. -/
theorem out_of_range_access_witness :
    read_word [1, 2, 3, 4] 0 = 0 ∧ write_word [1, 2, 3, 4] 0 7 = [1, 2, 3, 4] :=
  out_of_range_access [1, 2, 3, 4] 0 7 (by left; decide)

/-- A concrete CPU whose memory holds the single instruction
`ADDI rt=0, rs=0, imm=5` (word `0x20000005`) at the mapped PC. -/
def addiToR0State : MIPS_CPU :=
  { regs := (List.replicate 33 0).set 32 0x80000000
    memory := [0x20, 0x00, 0x00, 0x05]
    cycles := 0 }

/-- C9: register 0 is not hard-wired to zero — executing the ADDI that
targets register 0 leaves a nonzero value in `regs[0]`, which is then
readable. -/
theorem reg0_not_hardwired :
    addiToR0State.regs.getD 0 0 = 0 ∧
    addiToR0State.step.regs.getD 0 0 = 5 ∧ (5 : Nat) ≠ 0 :=
  ⟨rfl, rfl, by decide⟩

/-- C10, amended: whenever `load_state` raises (second component `true`),
the emulator state — every register, every memory byte, the hat colour —
is exactly what it was before the call. -/
theorem load_state_error_preserves (e : N64Emulator) (p : Pickled)
    (h : (load_state e p).2 = true) : (load_state e p).1 = e := by
  cases p with
  | triple r m hat => simp [load_state] at h
  | nonTriple => rfl

/-- C10 witness: a non-3-tuple save file raises and leaves the state
untouched. -/
theorem load_state_error_preserves_witness :
    (load_state N64Emulator.init Pickled.nonTriple).2 = true ∧
    (load_state N64Emulator.init Pickled.nonTriple).1 = N64Emulator.init :=
  ⟨rfl, load_state_error_preserves N64Emulator.init Pickled.nonTriple rfl⟩

/-- C10 counterexample: a 3-tuple snapshot whose memory component has the
wrong size (2 bytes instead of 4 MiB) is restored with **no** error, and it
fully replaces the memory — the claim that a wrong-size snapshot fails with
an error is false. -/
theorem load_state_wrong_size_applies :
    (load_state N64Emulator.init
      (Pickled.triple (List.replicate 33 0) [1, 2] "Red")).2 = false ∧
    (load_state N64Emulator.init
      (Pickled.triple (List.replicate 33 0) [1, 2] "Red")).1.cpu.memory.length = 2 ∧
    N64Emulator.init.cpu.memory.length = 4 * 1024 * 1024 := by
  refine ⟨rfl, rfl, ?_⟩
  simp only [N64Emulator.init, MIPS_CPU.init, List.length_replicate]

theorem getD32_set (l : List Nat) (w : Nat) (h : l.length = 33) :
    (l.set 32 w).getD 32 0 = w :=
  getD_set_self l 32 w (by omega)

theorem step_regs_shape (c : MIPS_CPU) :
    ∃ l : List Nat, l.length = c.regs.length ∧
      c.step = { regs := l.set 32 ((c.regs.getD 32 0 + 4) % 4294967296),
                 memory := c.memory, cycles := c.cycles + 1 } := by
  simp only [MIPS_CPU.step]
  split
  · exact ⟨_, by simp only [List.length_set], rfl⟩
  · split
    · exact ⟨_, by simp only [List.length_set], rfl⟩
    · split
      · split
        · exact ⟨_, by simp only [List.length_set], rfl⟩
        · exact ⟨c.regs, rfl, rfl⟩
      · exact ⟨c.regs, rfl, rfl⟩

theorem reset_pc (e : N64Emulator) : (reset e).cpu.regs.getD 32 0 = 0xBFC00000 := by
  simp only [reset]
  split <;> rfl

/-- C5: when the fetched instruction word is neither ADDI (`0x08`) nor LW
(`0x23`) nor SPECIAL/ADD (opcode `0x00` with funct `0x20`), `step` leaves
memory and all general-purpose registers unchanged; the only changes are
PC becoming `(pc + 4) mod 2^32` and the cycle counter increasing by 1. -/
theorem step_unknown_opcode (c : MIPS_CPU)
    (h8 : read_word c.memory (c.regs.getD 32 0 : Int) >>> 26 &&& 0x3F ≠ 0x08)
    (h23 : read_word c.memory (c.regs.getD 32 0 : Int) >>> 26 &&& 0x3F ≠ 0x23)
    (h20 : ¬(read_word c.memory (c.regs.getD 32 0 : Int) >>> 26 &&& 0x3F = 0x00 ∧
             read_word c.memory (c.regs.getD 32 0 : Int) &&& 0x3F = 0x20)) :
    c.step.memory = c.memory ∧
    c.step.cycles = c.cycles + 1 ∧
    c.step.regs = c.regs.set 32 ((c.regs.getD 32 0 + 4) % 4294967296) ∧
    ∀ i : Nat, i ≠ 32 → c.step.regs.getD i 0 = c.regs.getD i 0 := by
  have hstep : c.step = { c with
      regs := c.regs.set 32 ((c.regs.getD 32 0 + 4) % 4294967296),
      cycles := c.cycles + 1 } := by
    simp only [MIPS_CPU.step]
    rw [if_neg h8, if_neg h23]
    by_cases hz : read_word c.memory (c.regs.getD 32 0 : Int) >>> 26 &&& 0x3F = 0x00
    · rw [if_pos hz]
      have hf : read_word c.memory (c.regs.getD 32 0 : Int) &&& 0x3F ≠ 0x20 :=
        fun hf => h20 ⟨hz, hf⟩
      rw [if_neg hf]
    · rw [if_neg hz]
  rw [hstep]
  refine ⟨rfl, rfl, rfl, ?_⟩
  intro i hi
  exact getD_set_ne c.regs 32 i _ (fun hh => hi hh.symm)

/-- A CPU with empty memory: every fetch reads as 0, an unknown-opcode word. -/
def emptyMemCPU : MIPS_CPU :=
  { regs := List.replicate 33 0, memory := [], cycles := 0 }

/-- C5 witness: the all-zero instruction word fetched out of range is not one
of the three implemented opcodes, and the step leaves memory untouched while
incrementing the cycle counter. -/
theorem step_unknown_opcode_witness :
    (read_word emptyMemCPU.memory (emptyMemCPU.regs.getD 32 0 : Int) >>> 26 &&& 0x3F ≠ 0x08) ∧
    (read_word emptyMemCPU.memory (emptyMemCPU.regs.getD 32 0 : Int) >>> 26 &&& 0x3F ≠ 0x23) ∧
    ¬(read_word emptyMemCPU.memory (emptyMemCPU.regs.getD 32 0 : Int) >>> 26 &&& 0x3F = 0x00 ∧
      read_word emptyMemCPU.memory (emptyMemCPU.regs.getD 32 0 : Int) &&& 0x3F = 0x20) ∧
    emptyMemCPU.step.memory = emptyMemCPU.memory ∧
    emptyMemCPU.step.cycles = emptyMemCPU.cycles + 1 :=
  ⟨by decide, by decide, by decide,
   (step_unknown_opcode emptyMemCPU (by decide) (by decide) (by decide)).1,
   (step_unknown_opcode emptyMemCPU (by decide) (by decide) (by decide)).2.1⟩

/-- C6: one `step` always sets PC to `(old PC + 4) mod 2^32` and increments
the cycle counter by exactly 1, regardless of which instruction was fetched
(the register list has its invariant 33 entries). -/
theorem step_pc_cycles (c : MIPS_CPU) (h : c.regs.length = 33) :
    c.step.regs.getD 32 0 = (c.regs.getD 32 0 + 4) % 4294967296 ∧
    c.step.cycles = c.cycles + 1 := by
  obtain ⟨l, hl, hstep⟩ := step_regs_shape c
  rw [hstep]
  exact ⟨getD32_set l _ (hl.trans h), rfl⟩

/-- C6 witness at the freshly constructed CPU. -/
theorem step_pc_cycles_witness :
    MIPS_CPU.init.regs.length = 33 ∧
    (MIPS_CPU.init.step.regs.getD 32 0 =
        (MIPS_CPU.init.regs.getD 32 0 + 4) % 4294967296 ∧
     MIPS_CPU.init.step.cycles = MIPS_CPU.init.cycles + 1) :=
  ⟨by simp only [MIPS_CPU.init, List.length_set, List.length_replicate],
   step_pc_cycles MIPS_CPU.init
     (by simp only [MIPS_CPU.init, List.length_set, List.length_replicate])⟩

/-- C7: when the fetched instruction has opcode `0x08` (ADDI), `step` sets
`regs[rt]` to `(regs[rs] + sign_extend16(imm)) mod 2^32`; moreover
`sign_extend16 0x8000 = -32768`, and the claim's wrap example
`0xFFFFFFFF + 1` reduces to 0 without any overflow fault. -/
theorem step_addi (c : MIPS_CPU) (h33 : c.regs.length = 33)
    (hop : read_word c.memory (c.regs.getD 32 0 : Int) >>> 26 &&& 0x3F = 0x08) :
    c.step.regs.getD (read_word c.memory (c.regs.getD 32 0 : Int) >>> 16 &&& 0x1F) 0
      = (((c.regs.getD (read_word c.memory (c.regs.getD 32 0 : Int) >>> 21 &&& 0x1F) 0 : Int)
          + signExt16 (read_word c.memory (c.regs.getD 32 0 : Int) &&& 0xFFFF))
            % 4294967296).toNat ∧
    signExt16 0x8000 = -32768 ∧
    (((0xFFFFFFFF : Int) + signExt16 0x0001) % 4294967296).toNat = 0 := by
  refine ⟨?_, by decide, by decide⟩
  have hrt : read_word c.memory (c.regs.getD 32 0 : Int) >>> 16 &&& 0x1F ≠ 32 := by
    have := Nat.and_le_right
      (n := read_word c.memory (c.regs.getD 32 0 : Int) >>> 16) (m := 0x1F)
    omega
  simp only [MIPS_CPU.step]
  rw [if_pos hop]
  rw [getD_set_ne _ 32 _ _ (fun hh => hrt hh.symm)]
  refine getD_set_self _ _ _ ?_
  have h2 := Nat.and_le_right
    (n := read_word c.memory (c.regs.getD 32 0 : Int) >>> 16) (m := 0x1F)
  omega

/-- A CPU whose memory holds `ADDI rt=1, rs=1, imm=0x8000` (word
`0x20218000`) at the mapped PC, with `regs[1] = 0xFFFFFFFF`. -/
def addiWrapCPU : MIPS_CPU :=
  { regs := ((List.replicate 33 0).set 1 0xFFFFFFFF).set 32 0x80000000
    memory := [0x20, 0x21, 0x80, 0x00]
    cycles := 0 }

/-- C7 witness: the ADDI with a sign-bit immediate on the concrete CPU. -/
theorem step_addi_witness :
    addiWrapCPU.regs.length = 33 ∧
    read_word addiWrapCPU.memory (addiWrapCPU.regs.getD 32 0 : Int) >>> 26 &&& 0x3F = 0x08 ∧
    (addiWrapCPU.step.regs.getD
        (read_word addiWrapCPU.memory (addiWrapCPU.regs.getD 32 0 : Int) >>> 16 &&& 0x1F) 0
      = (((addiWrapCPU.regs.getD
            (read_word addiWrapCPU.memory (addiWrapCPU.regs.getD 32 0 : Int) >>> 21 &&& 0x1F) 0 : Int)
          + signExt16 (read_word addiWrapCPU.memory (addiWrapCPU.regs.getD 32 0 : Int) &&& 0xFFFF))
            % 4294967296).toNat ∧
     signExt16 0x8000 = -32768 ∧
     (((0xFFFFFFFF : Int) + signExt16 0x0001) % 4294967296).toNat = 0) :=
  ⟨by decide, by decide, step_addi addiWrapCPU (by decide) (by decide)⟩

/-- C8: writing a 32-bit value at an address whose mapped physical offset is
in range, then reading the same address, returns exactly that value. -/
theorem write_then_read (memory : List Nat) (vaddr : Int) (v : Nat)
    (hv : v < 4294967296)
    (h0 : 0 ≤ vaddr - 0x80000000)
    (h1 : vaddr - 0x80000000 < (memory.length : Int) - 3) :
    read_word (write_word memory vaddr v) vaddr = v := by
  have hcond : 0 ≤ vaddr - 0x80000000 ∧
      vaddr - 0x80000000 < (memory.length : Int) - 3 := ⟨h0, h1⟩
  have hlen : (write_word memory vaddr v).length = memory.length :=
    write_word_length _ _ _
  have hw : write_word memory vaddr v =
      memory.take (vaddr - 0x80000000).toNat ++ toBytes4BE v ++
        memory.drop ((vaddr - 0x80000000).toNat + 4) := by
    simp only [write_word]
    rw [if_pos hcond]
    simp only [sliceAssign]
  have hrlen : (memory.take (vaddr - 0x80000000).toNat).length =
      (vaddr - 0x80000000).toNat := by
    simp only [List.length_take]
    omega
  have hread : read_word (write_word memory vaddr v) vaddr =
      fromBytesBE (((write_word memory vaddr v).drop
        (vaddr - 0x80000000).toNat).take 4) := by
    simp only [read_word]
    rw [if_pos (by rw [hlen]; exact hcond)]
  rw [hread, hw, List.append_assoc, List.drop_left' hrlen,
    List.take_left' (by simp [toBytes4BE])]
  exact fromBytes_toBytes v hv

/-- C8 witness: write/read of `0xDEADBEEF` at the segment base over a 4-byte
memory. -/
theorem write_then_read_witness :
    (0xDEADBEEF : Nat) < 4294967296 ∧
    (0 : Int) ≤ 0x80000000 - 0x80000000 ∧
    (0x80000000 : Int) - 0x80000000 < (([0, 0, 0, 0] : List Nat).length : Int) - 3 ∧
    read_word (write_word [0, 0, 0, 0] 0x80000000 0xDEADBEEF) 0x80000000 = 0xDEADBEEF :=
  ⟨by decide, by decide, by decide,
   write_then_read [0, 0, 0, 0] 0x80000000 0xDEADBEEF (by decide) (by decide) (by decide)⟩

/-- C1 counterexample: after loading a 4096-byte image and calling `reset`,
the PC is the power-on reset vector `0xBFC00000`, not the post-boot entry
address `0x80000000` that `load_rom` sets — `reset` replays the memory copy
but not the PC assignment. -/
theorem reset_after_load_pc_not_entry :
    (reset (load_rom N64Emulator.init (List.replicate 4096 1))).cpu.regs.getD 32 0 ≠
      0x80000000 := by
  rw [reset_pc]
  decide

/-- C1, amended: `reset()` after `load_image(img)` (for an image of at least
4096 bytes) leaves the PC at the power-on reset vector `0xBFC00000` — not at
the post-boot entry address — while memory offsets `[0, 4096)` do equal
`img[0:4096]`. -/
theorem reset_after_load_rom (e : N64Emulator) (img : List Nat)
    (h : 4096 ≤ img.length) :
    (reset (load_rom e img)).cpu.regs.getD 32 0 = 0xBFC00000 ∧
    (reset (load_rom e img)).cpu.memory.take 4096 = img.take 4096 := by
  refine ⟨reset_pc _, ?_⟩
  have himg : img ≠ [] := by
    intro hh; rw [hh] at h; simp at h
  have htruthy : romTruthy (load_rom e img).rom = true := by
    simp only [load_rom, romTruthy, List.isEmpty_eq_false.mpr himg, Bool.not_false]
  simp only [reset]
  rw [if_pos htruthy]
  simp only [load_rom, Option.getD_some, MIPS_CPU.init, sliceAssign,
    List.take_zero, List.nil_append]
  rw [List.take_left' ?hlen]
  case hlen => simp only [List.length_take]; omega

/-- C1 witness at a concrete 4096-byte image. -/
theorem reset_after_load_rom_witness :
    4096 ≤ (List.replicate 4096 1).length ∧
    ((reset (load_rom N64Emulator.init (List.replicate 4096 1))).cpu.regs.getD 32 0 =
        0xBFC00000 ∧
     (reset (load_rom N64Emulator.init (List.replicate 4096 1))).cpu.memory.take 4096 =
        (List.replicate 4096 1).take 4096) :=
  ⟨le_of_eq (List.length_replicate 4096 1).symm,
   reset_after_load_rom N64Emulator.init (List.replicate 4096 1)
     (le_of_eq (List.length_replicate 4096 1).symm)⟩

/-- C3 counterexample: loading the 1-byte image `[5]` shrinks the memory
byte array from 4 MiB to 4190209 bytes — Python slice assignment
`memory[0:0x1000] = rom[0:0x1000]` resizes when the image is shorter than
4096 bytes, so the claim fails for short images. -/
theorem load_rom_changes_length :
    (load_rom N64Emulator.init [5]).cpu.memory.length = 4190209 ∧
    N64Emulator.init.cpu.memory.length = 4194304 := by
  constructor
  · simp only [load_rom, N64Emulator.init, MIPS_CPU.init, sliceAssign,
      List.length_append, List.length_take, List.length_drop, List.length_replicate,
      List.length_cons, List.length_nil]
    omega
  · simp only [N64Emulator.init, MIPS_CPU.init, List.length_replicate]

/-- C3, amended: for an image of at least 4096 bytes, `load_rom` and
`reset`-after-load leave the memory length at its 4 MiB value, `MIPS_CPU.step`
leaves memory entirely unchanged, and the session-level `step` (whose only
memory writes go through `write_word`) preserves the memory length. -/
theorem memory_length_preserved (e : N64Emulator) (img : List Nat)
    (himg : 4096 ≤ img.length) (hmem : e.cpu.memory.length = 4 * 1024 * 1024) :
    (load_rom e img).cpu.memory.length = e.cpu.memory.length ∧
    (reset (load_rom e img)).cpu.memory.length = e.cpu.memory.length ∧
    (∀ c : MIPS_CPU, c.step.memory = c.memory) ∧
    (∀ (e2 : N64Emulator) (hat : String),
      (e2.step hat).cpu.memory.length = e2.cpu.memory.length) := by
  have himg' : img ≠ [] := by
    intro hh; rw [hh] at himg; simp at himg
  refine ⟨?_, ?_, fun c => step_memory c, ?_⟩
  · simp only [load_rom, sliceAssign, List.length_append, List.length_take,
      List.length_drop]
    omega
  · have htruthy : romTruthy (load_rom e img).rom = true := by
      simp only [load_rom, romTruthy, List.isEmpty_eq_false.mpr himg', Bool.not_false]
    simp only [reset]
    rw [if_pos htruthy]
    simp only [load_rom, Option.getD_some, MIPS_CPU.init, sliceAssign,
      List.length_append, List.length_take, List.length_drop, List.length_replicate]
    omega
  · intro e2 hat
    simp only [N64Emulator.step]
    split
    · rfl
    · split <;> split <;> split <;>
        simp only [write_word_length, step_memory]

/-- C3 witness at a concrete 4096-byte image and the fresh emulator. -/
theorem memory_length_preserved_witness :
    4096 ≤ (List.replicate 4096 1).length ∧
    N64Emulator.init.cpu.memory.length = 4 * 1024 * 1024 ∧
    (load_rom N64Emulator.init (List.replicate 4096 1)).cpu.memory.length =
      N64Emulator.init.cpu.memory.length :=
  ⟨le_of_eq (List.length_replicate 4096 1).symm,
   by simp only [N64Emulator.init, MIPS_CPU.init, List.length_replicate],
   (memory_length_preserved N64Emulator.init (List.replicate 4096 1)
     (le_of_eq (List.length_replicate 4096 1).symm)
     (by simp only [N64Emulator.init, MIPS_CPU.init, List.length_replicate])).1⟩
